import Mathlib

/-!
Verification of the Qt-thesis map renderer core.

A shallow embedding, over exact rationals, of the visible-tile calculator
(`Bach::calcVisibleTiles`), the text rendering pipeline with collision
avoidance (`Rendering_Text.cpp`), and the polygon fill dispatch
(`Bach::paintSingleTileFeature_Polygon`), together with theorems settling
the specification claims about them.

Modelling conventions:
* C++ `double`/`qreal` arithmetic is embedded as exact rational arithmetic
  (`ℚ`); `int` as `ℤ`.
* Qt font/glyph geometry (`QFontMetrics` advances and heights,
  `QPainterPath::addText` bounding boxes, `QPainterPath` length/percent/angle
  sampling) and the style-expression evaluator results are oracles: they enter
  the definitions as explicit function-valued inputs, and the definitions
  reproduce the source's arithmetic and control flow on top of them.
-/

/-! ## C++ / Qt arithmetic primitives -/

/-- C++ `(int)` conversion of a floating value: truncation toward zero. -/
def cppTrunc (q : ℚ) : ℤ := if 0 ≤ q then ⌊q⌋ else -⌊-q⌋

/-- C++ `ceil` on a rational, as an integer: `ceil x = -floor (-x)`. -/
def ceilQ (q : ℚ) : ℤ := -⌊-q⌋

/-- Qt `qRound`: `d >= 0 ? int(d + 0.5) : int(d - 0.5)`. -/
def qRound (q : ℚ) : ℤ := if 0 ≤ q then cppTrunc (q + 1/2) else cppTrunc (q - 1/2)

/-- C++ `std::clamp(v, lo, hi)`: `v < lo ? lo : (hi < v ? hi : v)`. -/
def cppClamp (v lo hi : ℤ) : ℤ := if v < lo then lo else if hi < v then hi else v

/-- `n` consecutive integers starting at `a`. -/
def intRangeAux (a : ℤ) : ℕ → List ℤ
  | 0 => []
  | n + 1 => a :: intRangeAux (a + 1) n

/-- The inclusive integer range `[a, b]` as a list, empty when `b < a`
(the iteration space of a C++ `for (i = a; i <= b; i++)` loop). -/
def intRange (a b : ℤ) : List ℤ := intRangeAux a (b - a + 1).toNat

/-! ## Qt value types -/

/-- `QPoint`: integer point. -/
structure QPoint where
  x : ℤ
  y : ℤ
deriving DecidableEq, Repr

/-- `QRect`, stored as Qt stores it: the two corner points `(x1, y1)` and
`(x2, y2)`, where a rect constructed from a size `w × h` has
`x2 = x1 + w - 1`. -/
structure QRect where
  x1 : ℤ
  y1 : ℤ
  x2 : ℤ
  y2 : ℤ
deriving DecidableEq, Repr

/-- `QRect(int x, int y, int w, int h)`. -/
def QRect.mkXYWH (x y w h : ℤ) : QRect := ⟨x, y, x + w - 1, y + h - 1⟩

def QRect.width (r : QRect) : ℤ := r.x2 - r.x1 + 1

def QRect.height (r : QRect) : ℤ := r.y2 - r.y1 + 1

/-- `QRect::isNull`: both width and height are 0. -/
def QRect.isNull (r : QRect) : Bool := r.width == 0 && r.height == 0

/-- `QRect::translate(dx, dy)`. -/
def QRect.translate (r : QRect) (dx dy : ℤ) : QRect :=
  ⟨r.x1 + dx, r.y1 + dy, r.x2 + dx, r.y2 + dy⟩

/-- `QRect::intersects`: true iff at least one pixel lies in both rectangles
(null rectangles never intersect; a rectangle with no pixels makes the
corner test below false automatically). -/
def QRect.intersects (a b : QRect) : Bool :=
  !a.isNull && !b.isNull &&
    (max a.x1 b.x1 ≤ min a.x2 b.x2 && max a.y1 b.y1 ≤ min a.y2 b.y2)

/-- `QRect::united` (`operator|`): bounding rectangle of the two, where a
null rectangle is the identity. -/
def QRect.united (a b : QRect) : QRect :=
  if a.isNull then b
  else if b.isNull then a
  else ⟨min a.x1 b.x1, min a.y1 b.y1, max a.x2 b.x2, max a.y2 b.y2⟩

/-- `QRectF`: rational-valued rectangle stored as origin and size. -/
structure QRectF where
  x : ℚ
  y : ℚ
  w : ℚ
  h : ℚ
deriving DecidableEq, Repr

/-- `QRectF::toRect()` (Qt 6): corners rounded with `qRound`. -/
def QRectF.toRect (r : QRectF) : QRect :=
  ⟨qRound r.x, qRound r.y, qRound (r.x + r.w) - 1, qRound (r.y + r.h) - 1⟩

/-- `QRectF(const QRect &)`: the integer rectangle as a float rectangle. -/
def QRect.toRectF (r : QRect) : QRectF := ⟨r.x1, r.y1, r.width, r.height⟩

def QRectF.setWidth (r : QRectF) (w : ℚ) : QRectF := { r with w := w }

def QRectF.setHeight (r : QRectF) (h : ℚ) : QRectF := { r with h := h }

def QRectF.translate (r : QRectF) (dx dy : ℚ) : QRectF :=
  { r with x := r.x + dx, y := r.y + dy }

/-- `QColor`, with exact rational channels; `alphaF` is the alpha channel in
`[0,1]` (the 16-bit quantisation Qt applies on storage is not modelled). -/
structure QColor where
  red : ℚ
  green : ℚ
  blue : ℚ
  alphaF : ℚ
deriving DecidableEq, Repr

/-- `QColor::setAlphaF`. -/
def QColor.setAlphaF (c : QColor) (a : ℚ) : QColor := { c with alphaF := a }

/-- The affine part of `QTransform`: maps `(x, y)` to
`(m11*x + m21*y + dx, m12*x + m22*y + dy)`. -/
structure QTransform where
  m11 : ℚ
  m12 : ℚ
  m21 : ℚ
  m22 : ℚ
  dx : ℚ
  dy : ℚ
deriving DecidableEq, Repr

/-- `QTransform()`: identity. -/
def QTransform.identity : QTransform := ⟨1, 0, 0, 1, 0, 0⟩

/-- `QTransform::scale(sx, sy)` on an affine transform:
`m11 *= sx; m12 *= sx; m21 *= sy; m22 *= sy`. -/
def QTransform.scale (t : QTransform) (sx sy : ℚ) : QTransform :=
  { t with m11 := t.m11 * sx, m12 := t.m12 * sx, m21 := t.m21 * sy, m22 := t.m22 * sy }

/-- `QTransform::map(const QPointF &)`. -/
def QTransform.mapF (t : QTransform) (p : ℚ × ℚ) : ℚ × ℚ :=
  (t.m11 * p.1 + t.m21 * p.2 + t.dx, t.m12 * p.1 + t.m22 * p.2 + t.dy)

/-- `QTransform::map(const QPoint &)`: the float result rounded with
`qRound`. -/
def QTransform.mapPoint (t : QTransform) (p : QPoint) : QPoint :=
  ⟨qRound (t.m11 * p.x + t.m21 * p.y + t.dx), qRound (t.m12 * p.x + t.m22 * p.y + t.dy)⟩

/-- A `QPainterPath` reduced to what the polygon dispatch observes: its
element points. `QTransform::map(QPainterPath)` maps them pointwise. -/
def QTransform.mapPath (t : QTransform) (path : List (ℚ × ℚ)) : List (ℚ × ℚ) :=
  path.map t.mapF

/-! ## Visible-tile calculator (`src/unnamed/part_004`) -/

/-- `TileCoord`: tile identity `(z, x, y)`. -/
structure TileCoord where
  z : ℤ
  x : ℤ
  y : ℤ
deriving DecidableEq, Repr

/-- `calcViewportSizeNorm(vpZoomLevel, viewportAspect)`
(`src/unnamed/part_004` lines 23-31):
`temp = 1 / pow(2, vpZoomLevel)`, returns
`(temp * qMin(1.0, 1.0 / viewportAspect), temp * qMax(1.0, viewportAspect))`.
The zoom level is restricted to integers so that `pow(2, ·)` stays rational
and exact. -/
def calcViewportSizeNorm (vpZoomLevel : ℤ) (viewportAspect : ℚ) : ℚ × ℚ :=
  let temp := 1 / (2 : ℚ) ^ vpZoomLevel
  (temp * min 1 (1 / viewportAspect), temp * max 1 viewportAspect)

/-- `Bach::calcVisibleTiles(vpX, vpY, vpAspect, vpZoomLevel, mapZoomLevel)`
(`src/unnamed/part_004` lines 33-66): clamp the zoom to 0, compute the
viewport extent, take `floor`/`ceil` of the scaled viewport edges clamped to
the grid, and return the Cartesian block of tile coordinates (y outer loop,
x inner loop). -/
def calcVisibleTiles (vpX vpY vpAspect : ℚ) (vpZoomLevel mapZoomLevelIn : ℤ) :
    List TileCoord :=
  let mapZoomLevel := max 0 mapZoomLevelIn
  let vpWidthNorm := (calcViewportSizeNorm vpZoomLevel vpAspect).1
  let vpHeightNorm := (calcViewportSizeNorm vpZoomLevel vpAspect).2
  let vpMinNormX := vpX - vpWidthNorm / 2
  let vpMaxNormX := vpX + vpWidthNorm / 2
  let vpMinNormY := vpY - vpHeightNorm / 2
  let vpMaxNormY := vpY + vpHeightNorm / 2
  let tileCount : ℤ := 2 ^ mapZoomLevel.toNat
  let leftmostTileX := cppClamp ⌊vpMinNormX * (tileCount : ℚ)⌋ 0 (tileCount - 1)
  let rightmostTileX := cppClamp (ceilQ (vpMaxNormX * (tileCount : ℚ))) 0 (tileCount - 1)
  let topmostTileY := cppClamp ⌊vpMinNormY * (tileCount : ℚ)⌋ 0 (tileCount - 1)
  let bottommostTileY := cppClamp (ceilQ (vpMaxNormY * (tileCount : ℚ))) 0 (tileCount - 1)
  (intRange topmostTileY bottommostTileY).flatMap fun y =>
    (intRange leftmostTileX rightmostTileX).map fun x =>
      { z := mapZoomLevel, x := x, y := y }

/-! ## Text rendering pipeline (`src/lib/Rendering_Text.cpp`) -/

/-- Integer metrics of a fixed font (`QFontMetrics`: string and single
character horizontal advances and the line height), plus the fractional line
height the composite layout reads from `QFontMetricsF`. Qt's glyph
measurement is an oracle of the model. -/
structure FontMetricsModel where
  advanceStr : List Char → ℤ
  advanceChar : Char → ℤ
  height : ℤ
  heightF : ℚ

/-- `QString::split(" ")` with Qt's default `KeepEmptyParts`
behaviour; splitting the empty string yields one empty part. -/
def splitOnSpace : List Char → List (List Char)
  | [] => [[]]
  | c :: rest =>
    if c = ' ' then [] :: splitOnSpace rest
    else
      match splitOnSpace rest with
      | [] => [[c]]
      | w :: ws => (c :: w) :: ws

/-- `getCorrectedText(text, font, rectWidth)` (`Rendering_Text.cpp` lines
224-247): if the whole text fits in `font.pixelSize() * rectWidth` pixels
return it unsplit, otherwise split on spaces and greedily pack words into
clusters, starting a new cluster whenever appending the next word would
exceed the width. -/
def getCorrectedText (fm : FontMetricsModel) (pixelSize : ℤ) (text : List Char)
    (rectWidth : ℤ) : List (List Char) :=
  let rectWidthInPix := pixelSize * rectWidth
  if fm.advanceStr text ≤ rectWidthInPix then [text]
  else
    match splitOnSpace text with
    | [] => []
    | first :: restWords =>
      let step := fun (st : List (List Char) × List Char) (word : List Char) =>
        if fm.advanceStr (st.2 ++ [' '] ++ word) > rectWidthInPix then (st.1 ++ [st.2], word)
        else (st.1, st.2 ++ [' '] ++ word)
      let result := restWords.foldl step ([], first)
      result.1 ++ [result.2]

/-- `isOverlapping(textRect, rectList)` (`Rendering_Text.cpp` lines 204-209):
whether any previously kept rectangle intersects the candidate. -/
def isOverlapping (textRect : QRect) (rectList : List QRect) : Bool :=
  rectList.any fun rect => rect.intersects textRect

/-- The commit step shared verbatim by the three label processors
(`Rendering_Text.cpp` lines 306-327, 411-436 and 690-707): test the label's
viewport-global rectangle against every previously kept rectangle with
`isOverlapping`; on overlap drop the label entirely, otherwise append the
rectangle to the collision list and queue the render entry. -/
def commitText {α : Type} (textRect : QRect) (entry : α) (rects : List QRect)
    (queue : List α) : List QRect × List α :=
  if isOverlapping textRect rects then (rects, queue)
  else (rects ++ [textRect], queue ++ [entry])

/-- Folding `commitText` over a prepared list of labels (each with its
computed viewport-global rectangle): the collision pass over one frame. -/
def collisionFold {α : Type} (cands : List (QRect × α)) (st : List QRect × List α) :
    List QRect × List α :=
  cands.foldl (fun st c => commitText c.1 c.2 st.1 st.2) st

/-- `Bach::vpGlobalText` as observed by the collision logic; the painter-side
payload (the laid-out `QPainterPath`s and the `QFont`) is not modelled. -/
structure vpGlobalText where
  origin : QPoint
  texts : List (List Char)
  points : List QPoint
  color : QColor
  outlineSize : ℤ
  outlineColor : QColor
  rect : QRect
deriving DecidableEq, Repr

/-- `processSimpleText` (`Rendering_Text.cpp` lines 269-328). `pathBB` is the
oracle for `textPath.boundingRect()` after `addText({}, textFont, text)`;
`textColorResolved` is `getTextColor`'s result. The bounding rectangle is
rounded to ints (`.toRect()`), inflated by twice the outline, translated to
the centred anchor, and the viewport-global rectangle is committed through
`commitText`. -/
def processSimpleText (text : List Char) (coordinate : QPoint) (outlineSize : ℤ)
    (outlineColor : QColor) (pathBB : QRectF) (textColorResolved : QColor)
    (tileOriginX tileOriginY : ℤ) (rects : List QRect) (vpTextList : List vpGlobalText) :
    List QRect × List vpGlobalText :=
  let boundingRect0 := pathBB.toRect.toRectF
  let boundingRect1 := boundingRect0.setWidth (boundingRect0.w + 2 * outlineSize)
  let boundingRect2 := boundingRect1.setHeight (boundingRect1.h + 2 * outlineSize)
  let textCenteringOffsetX := -boundingRect2.w / 2
  let textCenteringOffsetY := boundingRect2.h / 2
  let boundingRect3 :=
    (boundingRect2.translate textCenteringOffsetX textCenteringOffsetY).translate
      coordinate.x coordinate.y
  let globalRect := QRect.mkXYWH
    (cppTrunc (tileOriginX + coordinate.x - boundingRect3.w / 2))
    (cppTrunc (tileOriginY + coordinate.y - boundingRect3.h / 2))
    (cppTrunc boundingRect3.w) (cppTrunc boundingRect3.h)
  commitText globalRect
    { origin := ⟨tileOriginX, tileOriginY⟩
      texts := [text]
      points := [⟨cppTrunc (coordinate.x + textCenteringOffsetX),
                  cppTrunc (coordinate.y + textCenteringOffsetY)⟩]
      color := textColorResolved
      outlineSize := outlineSize
      outlineColor := outlineColor
      rect := boundingRect3.toRect }
    rects vpTextList

/-- `processCompositeText` (`Rendering_Text.cpp` lines 351-437). `lineBB`
is the oracle for the `addText` bounding box of one line in the chosen font.
Each line is offset to its centred stacked position; the union of the
translated line-path bounding boxes (not outline-inflated, exactly as in the
source) forms the committed rectangle. -/
def processCompositeText (texts : List (List Char)) (coordinates : QPoint)
    (outlineSize : ℤ) (outlineColor : QColor) (fm : FontMetricsModel)
    (lineBB : List Char → QRectF) (textColorResolved : QColor)
    (tileOriginX tileOriginY : ℤ) (rects : List QRect) (vpTextList : List vpGlobalText) :
    List QRect × List vpGlobalText :=
  let n : ℚ := texts.length
  let height := fm.heightF
  let lineData := (List.range texts.length).map fun i =>
    let bb := lineBB (texts.getD i [])
    let bbr := bb.toRect.toRectF
    let w := bbr.w + 2 * outlineSize
    let h := bbr.h + 2 * outlineSize
    let offX := -w / 2
    let offY := h / 2 + ((i : ℚ) - n / 2) * height
    ((bb.translate offX offY).translate coordinates.x coordinates.y,
      QPoint.mk (cppTrunc (coordinates.x + offX)) (cppTrunc (coordinates.y + offY)))
  match lineData with
  | [] => (rects, vpTextList)
  | firstLine :: restLines =>
    let boundingRect := restLines.foldl (fun acc p => acc.united p.1.toRect) firstLine.1.toRect
    let globalRect := QRect.mkXYWH
      (tileOriginX + coordinates.x - boundingRect.width.tdiv 2)
      (tileOriginY + coordinates.y - boundingRect.height.tdiv 2)
      boundingRect.width boundingRect.height
    commitText globalRect
      { origin := ⟨tileOriginX, tileOriginY⟩
        texts := texts
        points := lineData.map Prod.snd
        color := textColorResolved
        outlineSize := outlineSize
        outlineColor := outlineColor
        rect := boundingRect }
      rects vpTextList

/-- The anchor-coordinate selection of `Bach::processSingleTileFeature_Point`
(`Rendering_Text.cpp` lines 505-510): the point at index 1 when the feature
carries more than one point, else the point at index 0. An out-of-range
access (empty point list, an assertion failure in Qt) falls back to
`(0,0)`. -/
def selectAnchorPoint (points : List QPoint) : QPoint :=
  if points.length > 1 then points.getD 1 ⟨0, 0⟩ else points.getD 0 ⟨0, 0⟩

/-- The transform built in `processSingleTileFeature_Point` lines 511-513:
identity scaled by `1/4096`, then by `tileSize`. -/
def pointTransform (tileSize : ℤ) : QTransform :=
  (QTransform.identity.scale (1/4096) (1/4096)).scale tileSize tileSize

/-- The inputs of `Bach::processSingleTileFeature_Point` with the style
oracles resolved: `textContent` is `getTextContent`'s result, `textSize` is
`getTextSize`'s result (the font pixel size), `maxTextWidth` is
`layerStyle.m_textMaxWidth.toInt()`, `fm` measures the chosen font at that
pixel size, and `lineBB` is the `addText` bounding box oracle for that
font. -/
structure PointIn where
  textContent : List Char
  fm : FontMetricsModel
  lineBB : List Char → QRectF
  textSize : ℤ
  maxTextWidth : ℤ
  points : List QPoint
  tileSize : ℤ
  tileOriginX : ℤ
  tileOriginY : ℤ
  outlineSize : ℤ
  outlineColor : QColor
  textColorResolved : QColor

/-- `Bach::processSingleTileFeature_Point` (`Rendering_Text.cpp` lines
453-553): skip on empty resolved text, word-wrap, select the anchor, map it
through the `1/4096 * tileSize` transform, silently drop anchors outside
`[0, tileSize]`, then dispatch to the simple or composite processor. -/
def processSingleTileFeature_Point (inp : PointIn) (rects : List QRect)
    (vpTextList : List vpGlobalText) : List QRect × List vpGlobalText :=
  let textToDraw := inp.textContent
  if textToDraw = [] then (rects, vpTextList)
  else
    let correctedText := getCorrectedText inp.fm inp.textSize textToDraw inp.maxTextWidth
    let coordinates := selectAnchorPoint inp.points
    let newCoordinates := (pointTransform inp.tileSize).mapPoint coordinates
    if newCoordinates.x < 0 ∨ newCoordinates.x > inp.tileSize ∨
        newCoordinates.y < 0 ∨ newCoordinates.y > inp.tileSize then (rects, vpTextList)
    else if correctedText.length = 1 then
      processSimpleText (correctedText.headD []) newCoordinates inp.outlineSize
        inp.outlineColor (inp.lineBB (correctedText.headD [])) inp.textColorResolved
        inp.tileOriginX inp.tileOriginY rects vpTextList
    else
      processCompositeText correctedText newCoordinates inp.outlineSize inp.outlineColor
        inp.fm inp.lineBB inp.textColorResolved inp.tileOriginX inp.tileOriginY
        rects vpTextList

/-- `isTextFlipped(angle)` (`Rendering_Text.cpp` lines 562-567). -/
def isTextFlipped (angle : ℚ) : Bool := angle < 270 && angle > 90

/-- `calctotalTextHorizontalAdvance(fMetrics, text, letterSpacing)`
(`Rendering_Text.cpp` lines 578-585): sum over the space-separated words of
the word advance plus `letterSpacing` per character, plus one space advance
between consecutive words. -/
def calctotalTextHorizontalAdvance (fm : FontMetricsModel) (text : List Char)
    (letterSpacing : ℤ) : ℤ :=
  let splitText := splitOnSpace text
  (splitText.foldl (fun acc w => acc + fm.advanceStr w + letterSpacing * w.length) 0)
    + ((splitText.length : ℤ) - 1) * fm.advanceStr [' ']

/-- The sampling interface of the transformed `QPainterPath` the curved-text
processor walks: total pixel length, percent at an arc length, tangent angle
and point at a percent. Qt's path sampling is an oracle of the model. -/
structure PathModel where
  length : ℚ
  percentAtLength : ℚ → ℚ
  angleAtPercent : ℚ → ℚ
  pointAtPercent : ℚ → ℚ × ℚ

/-- `Bach::singleCurvedTextCharacter`: a character with its position and
rotation. -/
structure singleCurvedTextCharacter where
  ch : Char
  posX : ℚ
  posY : ℚ
  angle : ℚ
deriving DecidableEq, Repr

/-- `Bach::vpGlobalCurvedText` as observed by the collision logic (the
`QFont` payload is not modelled). -/
structure vpGlobalCurvedText where
  chars : List singleCurvedTextCharacter
  color : QColor
  opacity : ℚ
  origin : QPoint
  outlineColor : QColor
  outlineSize : ℤ
deriving DecidableEq, Repr

/-- The character loop of `processSingleTileFeature_Point_Curved`
(`Rendering_Text.cpp` lines 657-689). The flipped and non-flipped source
loops differ only in the character order and in the rotation formula, so the
characters arrive here already in processing order and `flip` chooses the
rotation. A tangent-angle change exceeding `maxAngle` aborts the whole label
(`none`). State: remaining characters, accumulated arc `len`, previous
angle, accumulated character vector, accumulated bounding rectangle. -/
def curvedTextLoop (path : PathModel) (fm : FontMetricsModel) (spacing : ℚ)
    (maxAngle : ℤ) (flip : Bool) :
    List Char → ℚ → ℚ → List singleCurvedTextCharacter → QRect →
      Option (List singleCurvedTextCharacter × QRect)
  | [], _, _, acc, textRect => some (acc, textRect)
  | c :: rest, len, preAngle, acc, textRect =>
    let percentage := path.percentAtLength len
    let charPosition := path.pointAtPercent percentage
    let angle := path.angleAtPercent percentage
    if |angle - preAngle| > (maxAngle : ℚ) then none
    else
      let rotation := if flip then -(angle + 180) else -angle
      let charRect := QRect.mkXYWH (cppTrunc charPosition.1)
        (cppTrunc (charPosition.2 - ((fm.height.tdiv 2 : ℤ) : ℚ)))
        (fm.advanceChar c) fm.height
      let letterSpacing := if c = ' ' then 0 else spacing
      curvedTextLoop path fm spacing maxAngle flip rest
        (len + fm.advanceChar c + letterSpacing) angle
        (acc ++ [⟨c, charPosition.1, charPosition.2, rotation⟩])
        (textRect.united charRect)

/-- The tangent angles sampled at the successive glyph arc-length positions,
following the same arc-length recurrence as `curvedTextLoop` but independent
of any abort. -/
def curvedGlyphAngles (path : PathModel) (fm : FontMetricsModel) (spacing : ℚ) :
    List Char → ℚ → List ℚ
  | [], _ => []
  | c :: rest, len =>
    path.angleAtPercent (path.percentAtLength len) ::
      curvedGlyphAngles path fm spacing rest
        (len + fm.advanceChar c + (if c = ' ' then 0 else spacing))

/-- The inputs of `Bach::processSingleTileFeature_Point_Curved` with the
style oracles resolved: `textContent` is `getTextContent`'s result,
`upperChar` models `QString::toUpper` characterwise (Unicode special casing
that changes the string length is not modelled), `spacing` is
`getTextLetterSpacing`'s float result, `maxAngle` is `getTextMaxAngle`'s,
and `path` samples the feature's line already mapped through
`transformIn * 1/4096`. -/
structure CurvedIn where
  textContent : List Char
  upperChar : Char → Char
  fm : FontMetricsModel
  spacing : ℚ
  maxAngle : ℤ
  path : PathModel
  textColorResolved : QColor
  textOpacityResolved : ℚ
  tileOriginX : ℤ
  tileOriginY : ℤ
  outlineSize : ℤ
  outlineColor : QColor

/-- `Bach::processSingleTileFeature_Point_Curved` (`Rendering_Text.cpp` lines
613-708): upper-case the resolved text, skip when empty, abort when the text
advance exceeds the path length (`spacing` truncated to int at the call, as
in the source), walk the path with `curvedTextLoop` (reversed character
order when the initial tangent flips the text), and commit the translated
bounding rectangle and character vector through `commitText`. -/
def processSingleTileFeature_Point_Curved (inp : CurvedIn) (rects : List QRect)
    (vpCurvedTextList : List vpGlobalCurvedText) :
    List QRect × List vpGlobalCurvedText :=
  match inp.textContent.map inp.upperChar with
  | [] => (rects, vpCurvedTextList)
  | c0 :: crest =>
    let textToDraw := c0 :: crest
    if (calctotalTextHorizontalAdvance inp.fm textToDraw (cppTrunc inp.spacing) : ℚ) >
        inp.path.length then
      (rects, vpCurvedTextList)
    else
      let flipText := isTextFlipped (inp.path.angleAtPercent 0)
      let startPoint := inp.path.pointAtPercent 0
      let textRect0 := QRect.mkXYWH (cppTrunc startPoint.1)
        (cppTrunc (startPoint.2 - ((inp.fm.height.tdiv 2 : ℤ) : ℚ)))
        (inp.fm.advanceChar c0) inp.fm.height
      let order := if flipText then textToDraw.reverse else textToDraw
      match curvedTextLoop inp.path inp.fm inp.spacing inp.maxAngle flipText order 0
          (inp.path.angleAtPercent 0) [] textRect0 with
      | none => (rects, vpCurvedTextList)
      | some (charsVector, textRect) =>
        commitText (textRect.translate inp.tileOriginX inp.tileOriginY)
          { chars := charsVector
            color := inp.textColorResolved
            opacity := inp.textOpacityResolved
            origin := ⟨inp.tileOriginX, inp.tileOriginY⟩
            outlineColor := inp.outlineColor
            outlineSize := inp.outlineSize }
          rects vpCurvedTextList

/-! ## Polygon fill dispatch (`src/unnamed/part_005`) -/

/-- `getFillColor` (`src/unnamed/part_005` lines 17-51) with the expression
evaluator's resolved values as inputs: the resolved fill color with its
alpha multiplied by the resolved fill opacity
(`color.setAlphaF(fillOpacity * color.alphaF())`). -/
def getFillColor (colorResolved : QColor) (fillOpacityResolved : ℚ) : QColor :=
  colorResolved.setAlphaF (fillOpacityResolved * colorResolved.alphaF)

/-- The pen state the polygon dispatch sets: `Qt::NoPen` or a colored pen. -/
inductive PenState where
  | noPen : PenState
  | colored (color : QColor) (width : ℚ) : PenState
deriving DecidableEq, Repr

/-- The painter state touched by the polygon dispatch. -/
structure Painter where
  brush : Option QColor
  pen : PenState
  antialiasing : Bool
  drawnPaths : List (List (ℚ × ℚ))
deriving DecidableEq, Repr

/-- `Bach::PaintingDetailsPolygon` with the style oracles resolved:
`fillColorResolved`/`fillOpacityResolved` are the evaluator results read by
`getFillColor`, `antialias` is `layerStyle.m_antialias`, and the feature's
polygon is its path's element points. -/
structure PaintingDetailsPolygon where
  painter : Painter
  fillColorResolved : QColor
  fillOpacityResolved : ℚ
  antialias : Bool
  transformIn : QTransform
  featurePolygon : List (ℚ × ℚ)

/-- `Bach::paintSingleTileFeature_Polygon` (`src/unnamed/part_005` lines
60-78): set the brush from `getFillColor`, set the antialiasing hint, set
`Qt::NoPen`, scale the incoming transform by `1/4096`, map the feature path
and draw it. -/
def paintSingleTileFeature_Polygon (details : PaintingDetailsPolygon) : Painter :=
  let brushColor := getFillColor details.fillColorResolved details.fillOpacityResolved
  let p1 := { details.painter with brush := some brushColor }
  let p2 := { p1 with antialiasing := details.antialias }
  let p3 := { p2 with pen := PenState.noPen }
  let transform := details.transformIn.scale (1/4096) (1/4096)
  let newPath := transform.mapPath details.featurePolygon
  { p3 with drawnPaths := p3.drawnPaths ++ [newPath] }

/-! ## Concrete instances used by witnesses and counterexamples -/

/-- Opaque black. -/
def blackColor : QColor := ⟨0, 0, 0, 1⟩

/-- A monospace-like metrics oracle: every character advances 10 pixels,
line height 10. -/
def fmTen : FontMetricsModel := ⟨fun s => 10 * s.length, fun _ => 10, 10, 10⟩

/-- A straight flat path of the given pixel length: tangent angle 0
everywhere, all sampled points at the origin. -/
def flatPath (len : ℚ) : PathModel := ⟨len, fun _ => 0, fun _ => 0, fun _ => (0, 0)⟩

/-- A constant `addText` bounding-box oracle. -/
def squareBB : List Char → QRectF := fun _ => ⟨0, 0, 10, 10⟩

/-- A concrete point-feature input. -/
def samplePointIn : PointIn where
  textContent := ['H', 'I']
  fm := fmTen
  lineBB := squareBB
  textSize := 1
  maxTextWidth := 5
  points := [⟨0, 0⟩, ⟨2048, 2048⟩, ⟨9999, 0⟩]
  tileSize := 100
  tileOriginX := 0
  tileOriginY := 0
  outlineSize := 1
  outlineColor := blackColor
  textColorResolved := blackColor

/-- A point feature whose single anchor maps far left of the tile. -/
def outsidePointIn : PointIn := { samplePointIn with points := [⟨-4096, 0⟩] }

/-- A point feature whose resolved text is empty. -/
def emptyPointIn : PointIn := { samplePointIn with textContent := [] }

/-- A concrete line-feature input for the curved processor. -/
def sampleCurvedIn : CurvedIn where
  textContent := ['h', 'i']
  upperChar := Char.toUpper
  fm := fmTen
  spacing := 0
  maxAngle := 45
  path := flatPath 1000
  textColorResolved := blackColor
  textOpacityResolved := 1
  tileOriginX := 0
  tileOriginY := 0
  outlineSize := 1
  outlineColor := blackColor

/-- The same label on a 5-pixel path, shorter than the text advance. -/
def shortCurvedIn : CurvedIn := { sampleCurvedIn with path := flatPath 5 }

/-- A curved-label input whose resolved text is empty. -/
def emptyCurvedIn : CurvedIn := { sampleCurvedIn with textContent := [] }

/-- The curved-text entry the sample label commits: `"HI"` laid flat at the
origin. -/
def sampleCurvedEntry : vpGlobalCurvedText where
  chars := [⟨'H', 0, 0, 0⟩, ⟨'I', 0, 0, 0⟩]
  color := blackColor
  opacity := 1
  origin := ⟨0, 0⟩
  outlineColor := blackColor
  outlineSize := 1

/-! ## Helper lemmas -/

theorem ceilQ_eq_ceil (q : ℚ) : ceilQ q = ⌈q⌉ := by
  rw [ceilQ, Int.floor_neg, neg_neg]

theorem mem_intRangeAux {k a : ℤ} {n : ℕ} : k ∈ intRangeAux a n ↔ a ≤ k ∧ k < a + n := by
  induction n generalizing a with
  | zero => simp [intRangeAux]
  | succ m ih =>
    simp only [intRangeAux, List.mem_cons, ih]
    omega

theorem mem_intRange {k a b : ℤ} : k ∈ intRange a b ↔ a ≤ k ∧ k ≤ b := by
  rw [intRange, mem_intRangeAux]
  omega

theorem le_cppClamp {x v hi : ℤ} (_h0 : 0 ≤ x) (hhi : x ≤ hi) (hv : x ≤ v) :
    x ≤ cppClamp v 0 hi := by
  unfold cppClamp; split_ifs <;> omega

theorem cppClamp_le {x v hi : ℤ} (h0 : 0 ≤ x) (_hhi : x ≤ hi) (hv : v ≤ x) :
    cppClamp v 0 hi ≤ x := by
  unfold cppClamp; split_ifs <;> omega

theorem cppClamp_mem {v hi : ℤ} (h : 0 ≤ hi) :
    0 ≤ cppClamp v 0 hi ∧ cppClamp v 0 hi ≤ hi := by
  unfold cppClamp; split_ifs <;> omega

theorem cppClamp_zero_zero (v : ℤ) : cppClamp v 0 0 = 0 := by
  unfold cppClamp; split_ifs <;> omega

theorem clamp_floor_le {lo : ℚ} {x N : ℤ} (hN : (0:ℤ) < N) (h0 : 0 ≤ x) (h1 : x ≤ N - 1)
    (hL : lo < ((x : ℚ) + 1) / (N : ℚ)) :
    cppClamp ⌊lo * (N : ℚ)⌋ 0 (N - 1) ≤ x := by
  have hNQ : (0:ℚ) < (N:ℚ) := by exact_mod_cast hN
  have h2 : lo * (N:ℚ) < (x:ℚ) + 1 := (lt_div_iff₀ hNQ).1 hL
  have h3 : (⌊lo * (N:ℚ)⌋ : ℚ) < (x:ℚ) + 1 := lt_of_le_of_lt (Int.floor_le _) h2
  have h4 : ⌊lo * (N:ℚ)⌋ < x + 1 := by exact_mod_cast h3
  exact cppClamp_le h0 h1 (by omega)

theorem le_clamp_ceil {hi : ℚ} {x N : ℤ} (hN : (0:ℤ) < N) (h0 : 0 ≤ x) (h1 : x ≤ N - 1)
    (hR : (x : ℚ) / (N : ℚ) < hi) :
    x ≤ cppClamp (ceilQ (hi * (N : ℚ))) 0 (N - 1) := by
  have hNQ : (0:ℚ) < (N:ℚ) := by exact_mod_cast hN
  have h2 : (x:ℚ) < hi * (N:ℚ) := (div_lt_iff₀ hNQ).1 hR
  have h3 : (x:ℚ) < (⌈hi * (N:ℚ)⌉ : ℚ) := lt_of_lt_of_le h2 (Int.le_ceil _)
  have h4 : x < ⌈hi * (N:ℚ)⌉ := by exact_mod_cast h3
  rw [ceilQ_eq_ceil]
  exact le_cppClamp h0 h1 (by omega)

/-- Evaluation of `calcVisibleTiles` on the spec's S4 viewport: the code
returns the 3×3 block `{1,2,3} × {1,2,3}`. -/
theorem calcVisibleTiles_S4_eval :
    calcVisibleTiles (1/2) (1/2) 1 2 2 =
      [⟨2,1,1⟩, ⟨2,2,1⟩, ⟨2,3,1⟩, ⟨2,1,2⟩, ⟨2,2,2⟩, ⟨2,3,2⟩, ⟨2,1,3⟩, ⟨2,2,3⟩, ⟨2,3,3⟩] := by
  norm_num [calcVisibleTiles, calcViewportSizeNorm, ceilQ, cppClamp]
  simp only [show Int.toNat 2 = 2 from rfl]
  norm_num
  decide

/-- C1 (counterexample): on the spec's own S4 instance
`calcVisibleTiles(0.5, 0.5, 1.0, 2.0, 2)`, the code returns the tile
`(2,3,3)`, which is not in the claimed four-tile set, and whose unit square
`[3/4, 1] × [3/4, 1]` does not intersect the viewport rectangle (the
viewport's right edge `vpX + e_w = 5/8` lies strictly left of `3/4`). -/
theorem calcVisibleTiles_S4_overincludes :
    TileCoord.mk 2 3 3 ∈ calcVisibleTiles (1/2) (1/2) 1 2 2 ∧
      TileCoord.mk 2 3 3 ∉ ([⟨2,1,1⟩, ⟨2,1,2⟩, ⟨2,2,1⟩, ⟨2,2,2⟩] : List TileCoord) ∧
      (1/2 : ℚ) + (calcViewportSizeNorm 2 1).1 / 2 < (3 : ℚ) / 4 := by
  refine ⟨?_, by decide, by norm_num [calcViewportSizeNorm]⟩
  rw [calcVisibleTiles_S4_eval]
  decide

/-- C1 (amended): `calcVisibleTiles` returns the floor/ceil-clamped Cartesian
block of tile coordinates; this block contains every tile at zoom `zm ≥ 0`
whose unit square overlaps the viewport rectangle of half-extents
`e_w = 2^{-zv}·min(1,1/a)/2`, `e_h = 2^{-zv}·max(1,a)/2` in positive area
(first conjunct), but may contain extra rows/columns at the ceiling edges: on
the S4 instance it returns the 3×3 block `{1,2,3} × {1,2,3}` at zoom 2, not
the claimed 2×2 set (second conjunct). -/
theorem calcVisibleTiles_block_superset_of_overlap :
    (∀ (vpX vpY vpAspect : ℚ) (zv zm x y : ℤ),
      0 ≤ zm →
      0 ≤ x → x ≤ 2 ^ zm.toNat - 1 →
      0 ≤ y → y ≤ 2 ^ zm.toNat - 1 →
      (x : ℚ) / ((2 ^ zm.toNat : ℤ) : ℚ) < vpX + (calcViewportSizeNorm zv vpAspect).1 / 2 →
      vpX - (calcViewportSizeNorm zv vpAspect).1 / 2 < ((x : ℚ) + 1) / ((2 ^ zm.toNat : ℤ) : ℚ) →
      (y : ℚ) / ((2 ^ zm.toNat : ℤ) : ℚ) < vpY + (calcViewportSizeNorm zv vpAspect).2 / 2 →
      vpY - (calcViewportSizeNorm zv vpAspect).2 / 2 < ((y : ℚ) + 1) / ((2 ^ zm.toNat : ℤ) : ℚ) →
      TileCoord.mk zm x y ∈ calcVisibleTiles vpX vpY vpAspect zv zm)
    ∧ calcVisibleTiles (1/2) (1/2) 1 2 2 =
        [⟨2,1,1⟩, ⟨2,2,1⟩, ⟨2,3,1⟩, ⟨2,1,2⟩, ⟨2,2,2⟩, ⟨2,3,2⟩, ⟨2,1,3⟩, ⟨2,2,3⟩, ⟨2,3,3⟩] := by
  refine ⟨?_, calcVisibleTiles_S4_eval⟩
  intro vpX vpY vpAspect zv zm x y hzm hx0 hx1 hy0 hy1 hxr hxl hyr hyl
  have hmax : max 0 zm = zm := max_eq_right hzm
  have hNpos : (0:ℤ) < 2 ^ zm.toNat := pow_pos (by norm_num) _
  have hxle := le_clamp_ceil hNpos hx0 hx1 hxr
  have hxge := clamp_floor_le hNpos hx0 hx1 hxl
  have hyle := le_clamp_ceil hNpos hy0 hy1 hyr
  have hyge := clamp_floor_le hNpos hy0 hy1 hyl
  simp only [calcVisibleTiles, hmax, List.mem_flatMap, List.mem_map]
  exact ⟨y, mem_intRange.2 ⟨hyge, hyle⟩, x, mem_intRange.2 ⟨hxge, hxle⟩, rfl⟩

/-- C1 (witness): the overlap-superset direction applied to the concrete
tile `(2,2,2)` on the S4 viewport. -/
theorem calcVisibleTiles_block_superset_witness :
    TileCoord.mk 2 2 2 ∈ calcVisibleTiles (1/2) (1/2) 1 2 2 :=
  calcVisibleTiles_block_superset_of_overlap.1 (1/2) (1/2) 1 2 2 2 2
    (by norm_num) (by norm_num) (by decide) (by norm_num) (by decide)
    (by norm_num [calcViewportSizeNorm, show Int.toNat 2 = 2 from rfl])
    (by norm_num [calcViewportSizeNorm, show Int.toNat 2 = 2 from rfl])
    (by norm_num [calcViewportSizeNorm, show Int.toNat 2 = 2 from rfl])
    (by norm_num [calcViewportSizeNorm, show Int.toNat 2 = 2 from rfl])

/-- C6 (confirmed): every tile coordinate returned by `calcVisibleTiles` has
`z = max(zm, 0)` and `x, y ∈ [0, 2^{max(zm,0)} - 1]` (first conjunct), and a
negative map zoom computes exactly as zoom 0, yielding the single tile
`(0,0,0)` (second conjunct). -/
theorem calcVisibleTiles_bounds_and_negative_zoom :
    (∀ (vpX vpY vpAspect : ℚ) (zv zmIn : ℤ), ∀ c ∈ calcVisibleTiles vpX vpY vpAspect zv zmIn,
      c.z = max 0 zmIn ∧ 0 ≤ c.x ∧ c.x ≤ 2 ^ (max 0 zmIn).toNat - 1 ∧
        0 ≤ c.y ∧ c.y ≤ 2 ^ (max 0 zmIn).toNat - 1)
    ∧ (∀ (vpX vpY vpAspect : ℚ) (zv zmIn : ℤ), zmIn < 0 →
      calcVisibleTiles vpX vpY vpAspect zv zmIn = calcVisibleTiles vpX vpY vpAspect zv 0 ∧
        calcVisibleTiles vpX vpY vpAspect zv zmIn = [⟨0, 0, 0⟩]) := by
  constructor
  · intro vpX vpY vpAspect zv zmIn c hc
    simp only [calcVisibleTiles, List.mem_flatMap, List.mem_map] at hc
    obtain ⟨y, hy, x, hx, rfl⟩ := hc
    rw [mem_intRange] at hy hx
    have hN : (0:ℤ) ≤ 2 ^ (max 0 zmIn).toNat - 1 := by
      have : (0:ℤ) < 2 ^ (max 0 zmIn).toNat := pow_pos (by norm_num) _
      omega
    have h1 := cppClamp_mem
      (v := ⌊(vpX - (calcViewportSizeNorm zv vpAspect).1 / 2) * ((2 ^ (max 0 zmIn).toNat : ℤ) : ℚ)⌋) hN
    have h2 := cppClamp_mem
      (v := ceilQ ((vpX + (calcViewportSizeNorm zv vpAspect).1 / 2) * ((2 ^ (max 0 zmIn).toNat : ℤ) : ℚ))) hN
    have h3 := cppClamp_mem
      (v := ⌊(vpY - (calcViewportSizeNorm zv vpAspect).2 / 2) * ((2 ^ (max 0 zmIn).toNat : ℤ) : ℚ)⌋) hN
    have h4 := cppClamp_mem
      (v := ceilQ ((vpY + (calcViewportSizeNorm zv vpAspect).2 / 2) * ((2 ^ (max 0 zmIn).toNat : ℤ) : ℚ))) hN
    refine ⟨rfl, ?_, ?_, ?_, ?_⟩ <;> dsimp only <;> omega
  · intro vpX vpY vpAspect zv zmIn h
    have h1 : max 0 zmIn = 0 := by omega
    have h2 : max 0 (0:ℤ) = 0 := by decide
    constructor
    · simp only [calcVisibleTiles, h1, h2]
    · simp only [calcVisibleTiles, h1, show ((0:ℤ).toNat) = 0 from rfl, pow_zero, sub_self,
        cppClamp_zero_zero]
      rfl

/-- C6 (witness): a negative map zoom on a concrete viewport yields exactly
the single tile `(0,0,0)`. -/
theorem calcVisibleTiles_bounds_witness :
    calcVisibleTiles (1/2) (1/2) 1 2 (-3) = [⟨0, 0, 0⟩] :=
  (calcVisibleTiles_bounds_and_negative_zoom.2 (1/2) (1/2) 1 2 (-3) (by decide)).2

/-! ## Collision pass (C2) -/

theorem QRect.intersects_comm (a b : QRect) : a.intersects b = b.intersects a := by
  unfold QRect.intersects
  rw [max_comm a.x1 b.x1, max_comm a.y1 b.y1, min_comm a.x2 b.x2, min_comm a.y2 b.y2]
  cases a.isNull <;> cases b.isNull <;> simp

theorem isOverlapping_eq_false {r : QRect} {rects : List QRect} :
    isOverlapping r rects = false ↔ ∀ q ∈ rects, q.intersects r = false := by
  simp [isOverlapping, List.any_eq_false]

theorem collisionFold_pairwise {α : Type} (cands : List (QRect × α)) :
    ∀ st : List QRect × List α,
      st.1.Pairwise (fun a b => a.intersects b = false ∧ b.intersects a = false) →
      (collisionFold cands st).1.Pairwise
        (fun a b => a.intersects b = false ∧ b.intersects a = false) := by
  induction cands with
  | nil => intro st h; exact h
  | cons c rest ih =>
    intro st h
    rw [collisionFold, List.foldl_cons]
    apply ih
    rw [commitText]
    cases hov : isOverlapping c.1 st.1 with
    | true => simpa using h
    | false =>
      rw [if_neg (by simp [hov])]
      rw [List.pairwise_append]
      refine ⟨h, List.pairwise_singleton _ _, ?_⟩
      intro a ha b hb
      rw [List.mem_singleton] at hb
      subst hb
      have h1 := isOverlapping_eq_false.1 hov a ha
      exact ⟨h1, by rw [QRect.intersects_comm]; exact h1⟩

/-- C2 (confirmed): the collision pass keeps only mutually non-intersecting
label rectangles. First conjunct: after folding the commit step over any
prepared label sequence starting from the empty state, the kept rectangles
are pairwise non-intersecting (in both orders, so no kept label's rectangle
intersects any earlier kept label's). Second conjunct: a label whose
rectangle overlaps an earlier kept rectangle is dropped entirely — neither
list changes — while a non-overlapping label appends exactly its rectangle
and its render entry. -/
theorem collision_pass_invariant :
    (∀ (α : Type) (cands : List (QRect × α)),
      (collisionFold cands ([], [])).1.Pairwise
        (fun a b => a.intersects b = false ∧ b.intersects a = false))
    ∧ (∀ (α : Type) (r : QRect) (e : α) (rects : List QRect) (queue : List α),
        (isOverlapping r rects = true → commitText r e rects queue = (rects, queue))
        ∧ (isOverlapping r rects = false →
            commitText r e rects queue = (rects ++ [r], queue ++ [e]))) := by
  constructor
  · intro α cands
    exact collisionFold_pairwise cands ([], []) List.Pairwise.nil
  · intro α r e rects queue
    constructor
    · intro h
      rw [commitText, if_pos h]
    · intro h
      rw [commitText, if_neg (by simp [h])]

/-- C2 (witness): a concrete overlapping label is dropped and a concrete
disjoint label is appended. -/
theorem collision_pass_invariant_witness :
    commitText (QRect.mkXYWH 0 0 10 10) (0 : ℕ) [QRect.mkXYWH 5 5 10 10] [7]
      = ([QRect.mkXYWH 5 5 10 10], [7]) ∧
    commitText (QRect.mkXYWH 100 100 10 10) (1 : ℕ) [QRect.mkXYWH 5 5 10 10] [7]
      = ([QRect.mkXYWH 5 5 10 10, QRect.mkXYWH 100 100 10 10], [7, 1]) :=
  ⟨(collision_pass_invariant.2 ℕ _ _ _ _).1 (by decide),
   (collision_pass_invariant.2 ℕ _ _ _ _).2 (by decide)⟩

/-! ## Polygon fill dispatch (C4) -/

theorem QTransform.scale_mapF (t : QTransform) (sx sy : ℚ) (p : ℚ × ℚ) :
    (t.scale sx sy).mapF p = t.mapF (sx * p.1, sy * p.2) := by
  unfold QTransform.scale QTransform.mapF
  dsimp only
  rw [Prod.mk.injEq]
  constructor <;> ring

/-- C4 (confirmed): for every polygon feature dispatched to
`paintSingleTileFeature_Polygon`, the final brush is the resolved fill color
with its alpha multiplied by the resolved fill opacity, the pen is
`Qt::NoPen`, and the painted path is the feature path mapped through the
incoming transform composed with a uniform `1/4096` scale. -/
theorem polygon_fill_dispatch (details : PaintingDetailsPolygon) :
    (paintSingleTileFeature_Polygon details).brush =
        some (details.fillColorResolved.setAlphaF
          (details.fillOpacityResolved * details.fillColorResolved.alphaF))
      ∧ (paintSingleTileFeature_Polygon details).pen = PenState.noPen
      ∧ (paintSingleTileFeature_Polygon details).drawnPaths =
          details.painter.drawnPaths ++
            [details.featurePolygon.map (fun p =>
              details.transformIn.mapF (p.1 / 4096, p.2 / 4096))] := by
  refine ⟨rfl, rfl, ?_⟩
  unfold paintSingleTileFeature_Polygon QTransform.mapPath
  dsimp only
  congr 2
  apply List.map_congr_left
  intro p _
  rw [QTransform.scale_mapF]
  congr 1 <;> ring

/-! ## Word wrap (C5) -/

theorem splitOnSpace_no_space : ∀ (t : List Char), ∀ w ∈ splitOnSpace t, ' ' ∉ w := by
  intro t
  induction t with
  | nil =>
    intro w hw
    simp [splitOnSpace] at hw
    simp [hw]
  | cons c rest ih =>
    intro w hw
    rw [splitOnSpace] at hw
    by_cases hc : c = ' '
    · rw [if_pos hc] at hw
      rcases List.mem_cons.1 hw with h | h
      · simp [h]
      · exact ih w h
    · rw [if_neg hc] at hw
      cases hsp : splitOnSpace rest with
      | nil =>
        rw [hsp] at hw
        rcases List.mem_cons.1 hw with h | h
        · subst h
          simp [hc]
          exact fun hcc => hc hcc.symm
        · simp at h
      | cons w0 ws =>
        rw [hsp] at hw
        rcases List.mem_cons.1 hw with h | h
        · subst h
          intro hmem
          rcases List.mem_cons.1 hmem with h | h
          · exact hc h.symm
          · exact ih w0 (by rw [hsp]; exact List.mem_cons_self _ _) h
        · exact ih w (by rw [hsp]; exact List.mem_cons_of_mem _ h)

theorem wrap_foldl_inv (fm : FontMetricsModel) (limit : ℤ) :
    ∀ (words : List (List Char)) (st : List (List Char) × List Char),
      (∀ w ∈ words, ' ' ∉ w) →
      (∀ cl ∈ st.1, fm.advanceStr cl ≤ limit ∨ ' ' ∉ cl) →
      (fm.advanceStr st.2 ≤ limit ∨ ' ' ∉ st.2) →
      (∀ cl ∈ (words.foldl (fun st word =>
            if fm.advanceStr (st.2 ++ [' '] ++ word) > limit then (st.1 ++ [st.2], word)
            else (st.1, st.2 ++ [' '] ++ word)) st).1,
          fm.advanceStr cl ≤ limit ∨ ' ' ∉ cl) ∧
        (fm.advanceStr ((words.foldl (fun st word =>
            if fm.advanceStr (st.2 ++ [' '] ++ word) > limit then (st.1 ++ [st.2], word)
            else (st.1, st.2 ++ [' '] ++ word)) st).2) ≤ limit ∨
          ' ' ∉ ((words.foldl (fun st word =>
            if fm.advanceStr (st.2 ++ [' '] ++ word) > limit then (st.1 ++ [st.2], word)
            else (st.1, st.2 ++ [' '] ++ word)) st).2)) := by
  intro words
  induction words with
  | nil => intro st _ h1 h2; exact ⟨h1, h2⟩
  | cons w rest ih =>
    intro st hws h1 h2
    rw [List.foldl_cons]
    by_cases hover : fm.advanceStr (st.2 ++ [' '] ++ w) > limit
    · rw [if_pos hover]
      apply ih _ (fun x hx => hws x (List.mem_cons_of_mem _ hx))
      · intro cl hcl
        rcases List.mem_append.1 hcl with h | h
        · exact h1 cl h
        · rw [List.mem_singleton] at h
          subst h
          exact h2
      · exact Or.inr (hws w (List.mem_cons_self _ _))
    · rw [if_neg hover]
      apply ih _ (fun x hx => hws x (List.mem_cons_of_mem _ hx))
      · exact h1
      · exact Or.inl (not_lt.1 hover)

/-- C5 (counterexample): with a monospace 10px-per-character metrics oracle,
font pixel size 1 and `maxTextWidth` 5, the single unbreakable word
`"ABCDEF"` is returned as one line whose advance (60) exceeds
`maxTextWidth * pixelSize = 5`. -/
theorem wordwrap_overflow_counterexample :
    getCorrectedText fmTen 1 ['A','B','C','D','E','F'] 5 = [['A','B','C','D','E','F']] ∧
      fmTen.advanceStr ['A','B','C','D','E','F'] > 1 * 5 := by
  decide

/-- C5 (amended): every line produced by the greedy wrap either fits in
`pixelSize * maxTextWidth` pixels or is a single word (contains no space);
only unbreakable words can exceed the bound. -/
theorem wordwrap_lines_fit_or_single_word (fm : FontMetricsModel)
    (pixelSize maxTextWidth : ℤ) (text : List Char) :
    ∀ l ∈ getCorrectedText fm pixelSize text maxTextWidth,
      fm.advanceStr l ≤ pixelSize * maxTextWidth ∨ ' ' ∉ l := by
  intro l hl
  rw [getCorrectedText] at hl
  by_cases hfit : fm.advanceStr text ≤ pixelSize * maxTextWidth
  · rw [if_pos hfit] at hl
    rw [List.mem_singleton] at hl
    subst hl
    exact Or.inl hfit
  · rw [if_neg hfit] at hl
    cases hsp : splitOnSpace text with
    | nil =>
      rw [hsp] at hl
      simp at hl
    | cons first rest =>
      rw [hsp] at hl
      have hws := splitOnSpace_no_space text
      rw [hsp] at hws
      have hinv := wrap_foldl_inv fm (pixelSize * maxTextWidth) rest ([], first)
        (fun w hw => hws w (List.mem_cons_of_mem _ hw))
        (by intro cl hcl; simp at hcl)
        (Or.inr (hws first (List.mem_cons_self _ _)))
      dsimp only at hl
      rcases List.mem_append.1 hl with h | h
      · exact hinv.1 l h
      · rw [List.mem_singleton] at h
        subst h
        exact hinv.2

/-- C5 (witness): the amended statement applied to the concrete overflowing
single-word line. -/
theorem wordwrap_lines_fit_witness :
    fmTen.advanceStr ['A','B','C','D','E','F'] ≤ 1 * 5 ∨
      ' ' ∉ (['A','B','C','D','E','F'] : List Char) :=
  wordwrap_lines_fit_or_single_word fmTen 1 5 ['A','B','C','D','E','F']
    ['A','B','C','D','E','F'] (by decide)

/-! ## Empty text skip (C7) -/

/-- C7 (confirmed): a point or line feature whose resolved text content is
empty is skipped by both text processors: the collision-rectangle list and
the viewport-global text lists are returned unchanged. -/
theorem empty_text_skips (pin : PointIn) (cin : CurvedIn)
    (rects1 : List QRect) (vpl : List vpGlobalText)
    (rects2 : List QRect) (cvl : List vpGlobalCurvedText)
    (h1 : pin.textContent = []) (h2 : cin.textContent = []) :
    processSingleTileFeature_Point pin rects1 vpl = (rects1, vpl) ∧
      processSingleTileFeature_Point_Curved cin rects2 cvl = (rects2, cvl) := by
  constructor
  · rw [processSingleTileFeature_Point, if_pos h1]
  · rw [processSingleTileFeature_Point_Curved, h2]
    rfl

/-- C7 (witness): the skip applied to concrete empty-text inputs. -/
theorem empty_text_skips_witness :
    processSingleTileFeature_Point emptyPointIn [] [] = ([], []) ∧
      processSingleTileFeature_Point_Curved emptyCurvedIn [] [] = ([], []) :=
  empty_text_skips emptyPointIn emptyCurvedIn [] [] [] [] rfl rfl

/-! ## Anchor-point selection (C8) -/

/-- C8 (confirmed): the axis-aligned label anchor is the feature point at
index 1 when the feature carries more than one point (first conjunct), the
point at index 0 when it carries exactly one (second conjunct), and
`processSingleTileFeature_Point` behaves as if the feature carried only the
index-1 point whenever there is more than one (third conjunct). -/
theorem point_anchor_index :
    (∀ (pts : List QPoint) (h : 1 < pts.length), selectAnchorPoint pts = pts.get ⟨1, h⟩)
    ∧ (∀ p : QPoint, selectAnchorPoint [p] = p)
    ∧ (∀ (inp : PointIn) (rects : List QRect) (vpl : List vpGlobalText)
        (h : 1 < inp.points.length),
        processSingleTileFeature_Point inp rects vpl =
          processSingleTileFeature_Point { inp with points := [inp.points.get ⟨1, h⟩] }
            rects vpl) := by
  have hsel1 : ∀ (pts : List QPoint) (h : 1 < pts.length),
      selectAnchorPoint pts = pts.get ⟨1, h⟩ := by
    intro pts h
    rw [selectAnchorPoint, if_pos h]
    exact List.getD_eq_getElem pts ⟨0, 0⟩ h
  have hsel2 : ∀ p : QPoint, selectAnchorPoint [p] = p := by
    intro p
    rw [selectAnchorPoint]
    rfl
  refine ⟨hsel1, hsel2, ?_⟩
  intro inp rects vpl h
  rw [processSingleTileFeature_Point, processSingleTileFeature_Point]
  have hpts : selectAnchorPoint inp.points =
      selectAnchorPoint [inp.points.get ⟨1, h⟩] := by
    rw [hsel1 inp.points h, hsel2]
  rw [hpts]

/-- C8 (witness): on the concrete three-point feature, the processor uses the
point at index 1. -/
theorem point_anchor_index_witness :
    processSingleTileFeature_Point samplePointIn [] [] =
      processSingleTileFeature_Point
        { samplePointIn with points := [samplePointIn.points.get ⟨1, by decide⟩] } [] [] :=
  point_anchor_index.2.2 samplePointIn [] [] (by decide)

/-! ## Out-of-tile anchors dropped (C9) -/

/-- C9 (confirmed): a point feature whose anchor, mapped through the
`1/4096 * tileSize` transform, lands strictly outside `[0, tileSize]` in
either coordinate is dropped silently: `processSingleTileFeature_Point`
returns the collision list and text list unchanged (whether or not the label
was ever tested for collision). -/
theorem point_outside_tile_dropped (inp : PointIn) (rects : List QRect)
    (vpl : List vpGlobalText)
    (h : ((pointTransform inp.tileSize).mapPoint (selectAnchorPoint inp.points)).x < 0 ∨
        ((pointTransform inp.tileSize).mapPoint (selectAnchorPoint inp.points)).x > inp.tileSize ∨
        ((pointTransform inp.tileSize).mapPoint (selectAnchorPoint inp.points)).y < 0 ∨
        ((pointTransform inp.tileSize).mapPoint (selectAnchorPoint inp.points)).y > inp.tileSize) :
    processSingleTileFeature_Point inp rects vpl = (rects, vpl) := by
  rw [processSingleTileFeature_Point]
  by_cases he : inp.textContent = []
  · rw [if_pos he]
  · rw [if_neg he]
    dsimp only
    rw [if_pos h]

/-- C9 (witness): the concrete anchor `(-4096, 0)` on a 100-pixel tile maps
to `x = -100 < 0` and the label is dropped. -/
theorem point_outside_tile_dropped_witness :
    processSingleTileFeature_Point outsidePointIn [] [] = ([], []) :=
  point_outside_tile_dropped outsidePointIn [] []
    (Or.inl (by
      norm_num [outsidePointIn, samplePointIn, pointTransform, QTransform.identity,
        QTransform.scale, QTransform.mapPoint, selectAnchorPoint, qRound, cppTrunc]))

/-! ## Curved labels (C3, C10) -/

theorem curvedTextLoop_none_of_break (path : PathModel) (fm : FontMetricsModel)
    (spacing : ℚ) (maxAngle : ℤ) (flip : Bool) :
    ∀ (cs : List Char) (len preAngle : ℚ) (acc : List singleCurvedTextCharacter)
      (textRect : QRect),
      ¬ List.Chain' (fun p q => |q - p| ≤ (maxAngle : ℚ))
          (preAngle :: curvedGlyphAngles path fm spacing cs len) →
      curvedTextLoop path fm spacing maxAngle flip cs len preAngle acc textRect = none := by
  intro cs
  induction cs with
  | nil =>
    intro len preAngle acc textRect h
    exact absurd (List.chain'_singleton _) (by rw [curvedGlyphAngles] at h; exact h)
  | cons c rest ih =>
    intro len preAngle acc textRect h
    rw [curvedGlyphAngles, List.chain'_cons] at h
    rw [curvedTextLoop]
    dsimp only
    by_cases hab : |path.angleAtPercent (path.percentAtLength len) - preAngle| > (maxAngle : ℚ)
    · rw [if_pos hab]
    · rw [if_neg hab]
      apply ih
      intro hch
      exact h ⟨not_lt.1 hab, hch⟩

theorem curvedTextLoop_chars (path : PathModel) (fm : FontMetricsModel)
    (spacing : ℚ) (maxAngle : ℤ) (flip : Bool) :
    ∀ (cs : List Char) (len preAngle : ℚ) (acc : List singleCurvedTextCharacter)
      (textRect : QRect) (out : List singleCurvedTextCharacter × QRect),
      curvedTextLoop path fm spacing maxAngle flip cs len preAngle acc textRect = some out →
      out.1.map singleCurvedTextCharacter.ch = acc.map singleCurvedTextCharacter.ch ++ cs := by
  intro cs
  induction cs with
  | nil =>
    intro len preAngle acc textRect out h
    rw [curvedTextLoop] at h
    cases h
    simp
  | cons c rest ih =>
    intro len preAngle acc textRect out h
    rw [curvedTextLoop] at h
    dsimp only at h
    by_cases hab : |path.angleAtPercent (path.percentAtLength len) - preAngle| > (maxAngle : ℚ)
    · rw [if_pos hab] at h
      cases h
    · rw [if_neg hab] at h
      have := ih _ _ _ _ _ h
      rw [this]
      simp

/-- C3 (confirmed): a curved label is aborted whole, leaving the
collision-rectangle list and the curved-text list untouched, whenever the
upper-cased text's total horizontal advance (`calctotalTextHorizontalAdvance`
with the truncated letter spacing) exceeds the path's pixel length, or the
tangent angle sampled at two consecutive glyph positions (in processing
order) changes by more than the resolved max-angle. -/
theorem curved_label_abort (inp : CurvedIn) (rects : List QRect)
    (cvl : List vpGlobalCurvedText)
    (h : (calctotalTextHorizontalAdvance inp.fm (inp.textContent.map inp.upperChar)
            (cppTrunc inp.spacing) : ℚ) > inp.path.length
      ∨ ¬ List.Chain' (fun p q => |q - p| ≤ (inp.maxAngle : ℚ))
          (inp.path.angleAtPercent 0 ::
            curvedGlyphAngles inp.path inp.fm inp.spacing
              (if isTextFlipped (inp.path.angleAtPercent 0) then
                  (inp.textContent.map inp.upperChar).reverse
                else inp.textContent.map inp.upperChar) 0)) :
    processSingleTileFeature_Point_Curved inp rects cvl = (rects, cvl) := by
  rw [processSingleTileFeature_Point_Curved]
  cases hm : inp.textContent.map inp.upperChar with
  | nil => rfl
  | cons c0 crest =>
    rw [hm] at h
    dsimp only
    by_cases hadv : (calctotalTextHorizontalAdvance inp.fm (c0 :: crest)
        (cppTrunc inp.spacing) : ℚ) > inp.path.length
    · rw [if_pos hadv]
    · rw [if_neg hadv]
      rcases h with h | h
      · exact absurd h hadv
      · rw [curvedTextLoop_none_of_break inp.path inp.fm inp.spacing inp.maxAngle _ _ _ _ [] _ h]

/-- C3 (witness): the two-character label `"HI"` (advance 20) on a 5-pixel
path aborts with both lists unchanged. -/
theorem curved_label_abort_witness :
    processSingleTileFeature_Point_Curved shortCurvedIn [] [] = ([], []) := by
  apply curved_label_abort
  left
  have h1 : shortCurvedIn.textContent.map shortCurvedIn.upperChar = ['H', 'I'] := by decide
  have h2 : cppTrunc shortCurvedIn.spacing = 0 := by
    show cppTrunc 0 = 0
    norm_num [cppTrunc]
  rw [h1, h2]
  have h3 : calctotalTextHorizontalAdvance shortCurvedIn.fm ['H', 'I'] 0 = 20 := by decide
  rw [h3]
  show (20 : ℚ) > (flatPath 5).length
  norm_num [flatPath]

/-- C10 (confirmed): a committed curved label renders exactly the resolved
text content converted to upper case: its character vector spells the
upper-cased string (reversed when the initial tangent flips the text), so
every committed character comes from the upper-cased string. -/
theorem curved_text_uppercased (inp : CurvedIn) (rects : List QRect)
    (cvl : List vpGlobalCurvedText) (e : vpGlobalCurvedText)
    (h : (processSingleTileFeature_Point_Curved inp rects cvl).2 = cvl ++ [e]) :
    (e.chars.map singleCurvedTextCharacter.ch = inp.textContent.map inp.upperChar ∨
      e.chars.map singleCurvedTextCharacter.ch = (inp.textContent.map inp.upperChar).reverse)
    ∧ ∀ ch ∈ e.chars.map singleCurvedTextCharacter.ch, ch ∈ inp.textContent.map inp.upperChar := by
  rw [processSingleTileFeature_Point_Curved] at h
  cases hm : inp.textContent.map inp.upperChar with
  | nil =>
    rw [hm] at h
    dsimp only at h
    exact absurd h (by simp)
  | cons c0 crest =>
    rw [hm] at h
    dsimp only at h
    by_cases hadv : (calctotalTextHorizontalAdvance inp.fm (c0 :: crest)
        (cppTrunc inp.spacing) : ℚ) > inp.path.length
    · rw [if_pos hadv] at h
      exact absurd h (by simp)
    · rw [if_neg hadv] at h
      cases hloop : curvedTextLoop inp.path inp.fm inp.spacing inp.maxAngle
          (isTextFlipped (inp.path.angleAtPercent 0))
          (if isTextFlipped (inp.path.angleAtPercent 0) then (c0 :: crest).reverse
            else c0 :: crest) 0 (inp.path.angleAtPercent 0) []
          (QRect.mkXYWH (cppTrunc (inp.path.pointAtPercent 0).1)
            (cppTrunc ((inp.path.pointAtPercent 0).2 - ((inp.fm.height.tdiv 2 : ℤ) : ℚ)))
            (inp.fm.advanceChar c0) inp.fm.height) with
      | none =>
        rw [hloop] at h
        exact absurd h (by simp)
      | some out =>
        rw [hloop] at h
        obtain ⟨charsVector, textRect⟩ := out
        simp only [commitText] at h
        by_cases hov : isOverlapping
            (textRect.translate inp.tileOriginX inp.tileOriginY) rects = true
        · rw [if_pos hov] at h
          exact absurd h (by simp)
        · rw [if_neg hov] at h
          dsimp only at h
          have h2 := List.append_cancel_left h
          rw [List.cons.injEq] at h2
          obtain ⟨h3, -⟩ := h2
          subst h3
          dsimp only
          have hchars := curvedTextLoop_chars inp.path inp.fm inp.spacing inp.maxAngle
            _ _ _ _ _ _ _ hloop
          rw [List.map_nil, List.nil_append] at hchars
          by_cases hflip : isTextFlipped (inp.path.angleAtPercent 0) = true
          · rw [if_pos hflip] at hchars
            constructor
            · right
              exact hchars
            · intro ch hch
              rw [hchars, List.mem_reverse] at hch
              exact hch
          · rw [if_neg hflip] at hchars
            constructor
            · left
              exact hchars
            · intro ch hch
              rw [hchars] at hch
              exact hch

/-- C10 (witness): the committed sample label spells the upper-cased text. -/
theorem curved_text_uppercased_witness :
    (sampleCurvedEntry.chars.map singleCurvedTextCharacter.ch =
        sampleCurvedIn.textContent.map sampleCurvedIn.upperChar ∨
      sampleCurvedEntry.chars.map singleCurvedTextCharacter.ch =
        (sampleCurvedIn.textContent.map sampleCurvedIn.upperChar).reverse)
    ∧ ∀ ch ∈ sampleCurvedEntry.chars.map singleCurvedTextCharacter.ch,
        ch ∈ sampleCurvedIn.textContent.map sampleCurvedIn.upperChar := by
  apply curved_text_uppercased sampleCurvedIn [] []
  have hmap : sampleCurvedIn.textContent.map sampleCurvedIn.upperChar = ['H', 'I'] := by
    decide
  rw [processSingleTileFeature_Point_Curved, hmap]
  dsimp only
  have hadv : ¬ ((calctotalTextHorizontalAdvance sampleCurvedIn.fm (['H', 'I'])
      (cppTrunc sampleCurvedIn.spacing) : ℚ) > sampleCurvedIn.path.length) := by
    have h2 : cppTrunc sampleCurvedIn.spacing = 0 := by
      show cppTrunc 0 = 0
      norm_num [cppTrunc]
    rw [h2]
    have h3 : calctotalTextHorizontalAdvance sampleCurvedIn.fm ['H', 'I'] 0 = 20 := by decide
    rw [h3]
    show ¬ ((20 : ℚ) > (flatPath 1000).length)
    norm_num [flatPath]
  rw [if_neg hadv]
  have hflip : isTextFlipped (sampleCurvedIn.path.angleAtPercent 0) = false := by
    show isTextFlipped ((flatPath 1000).angleAtPercent 0) = false
    norm_num [isTextFlipped, flatPath]
  rw [hflip]
  norm_num [sampleCurvedIn, flatPath, fmTen, curvedTextLoop, commitText, isOverlapping,
    QRect.united, QRect.mkXYWH, QRect.translate, QRect.isNull, QRect.width, QRect.height,
    cppTrunc, sampleCurvedEntry, blackColor]
